import Mathlib

/-! GoSSHa: a shallow embedding of the fan-out SSH proxy.

The definitions below follow `main.go`.  Go strings are modelled by Lean
strings, `uint64` values by natural numbers below `2 ^ 64`, signed 64-bit
values by integers wrapped explicitly, Go maps by association lists without
duplicate keys, and the external SSH primitives by functions supplied as
parameters.  Goroutine interleavings that the dispatcher can observe are
supplied as explicit schedules.
-/

namespace GoSSHa

/-! ## Strings: `strings.Index` and `strings.SplitN` for a one-character separator -/

/-- Position of the first occurrence of `c` (Go `strings.Index` with a
one-byte separator); `none` stands for the result `-1`. -/
def indexByte (c : Char) : List Char → Option Nat
  | [] => none
  | x :: xs => if x = c then some 0 else (indexByte c xs).map (· + 1)

/-- Number of occurrences of `c` (Go `strings.Count` with a one-byte separator). -/
def countByte (c : Char) (s : List Char) : Nat :=
  s.count c

/-- The loop of Go `genSplit`: `k` is the number of cuts still allowed
(`n - i` in the source); the remainder of the string is the last piece. -/
def genSplitLoop (sep : Char) : Nat → List Char → List (List Char)
  | 0, s => [s]
  | k + 1, s =>
    match indexByte sep s with
    | none => [s]
    | some m => s.take m :: genSplitLoop sep k (s.drop (m + 1))

/-- Go `strings.SplitN(s, sep, n)` for a separator of one byte. -/
def SplitN (s : List Char) (sep : Char) (n : Int) : List (List Char) :=
  if n = 0 then []
  else
    let n1 : Nat := if n < 0 then countByte sep s + 1 else n.toNat
    let n2 : Nat := if n1 > s.length + 1 then s.length + 1 else n1
    genSplitLoop sep (n2 - 1) s

/-- Source `getHostnameWithPort`: split at the first colon, defaulting the port to 22. -/
def getHostnameWithPort (hostname : String) : String × String :=
  match SplitN hostname.toList ':' 2 with
  | [a, b] => (String.mk a, String.mk b)
  | _ => (hostname, "22")

/-! ## Machine integers -/

/-- Conversion to `int64`: two's-complement wrap-around of an integer. -/
def toInt64 (x : Int) : Int :=
  (x + 2 ^ 63) % 2 ^ 64 - 2 ^ 63

/-- Source constant `defaultTimeout` (milliseconds). -/
def defaultTimeout : Nat := 30000

/-- Nanoseconds in `time.Millisecond`. -/
def millisecond : Int := 1000000

/-! ## Data model -/

/-- An established SSH client (`*ssh.Client`), named by a number. -/
abbrev Client := Nat

/-- Source `SshResult`; `err = none` is the nil error, `some m` an error whose text is `m`. -/
structure SshResult where
  hostname : String
  stdout : String
  stderr : String
  err : Option String
deriving DecidableEq, Repr

/-- Source `ProxyRequest`; `Timeout` is a `uint64`. -/
structure ProxyRequest where
  Action : String
  Password : String
  Cmd : String
  Source : String
  Target : String
  Hosts : List String
  Timeout : Nat
deriving DecidableEq, Repr

/-- Everything that travels over `repliesChan`.  `FinalReply` carries the elapsed
nanoseconds `time.Now().UnixNano() - startTime` (the source divides them by `1e9`
in floating point) and the `TimedOutHosts` map. -/
inductive Event where
  | Reply (Hostname Stdout Stderr : String) (Success : Bool) (ErrMsg : String)
  | PasswordRequest (PasswordFor : String)
  | FinalReply (elapsedNanos : Int) (TimedOutHosts : List (String × Bool))
  | ConnectionProgress (ConnectedHost : String)
  | UserError (IsCritical : Bool) (ErrorMsg : String)
  | InitializeComplete (done : Bool)
  | DisableReportConnectedHosts (b : Bool)
  | EnableReportConnectedHosts (b : Bool)
deriving DecidableEq, Repr

/-- Source `reportErrorToUser`: the event it submits. -/
def reportErrorToUser (msg : String) : Event :=
  .UserError false msg

/-- Source `reportCriticalErrorToUser`: the event it submits. -/
def reportCriticalErrorToUser (msg : String) : Event :=
  .UserError true msg

/-! ## Go maps with string keys, as association lists -/

/-- Map lookup `m[k]` with the comma-ok result. -/
def mapGet {α : Type} (m : List (String × α)) (k : String) : Option α :=
  match m with
  | [] => none
  | (k1, v) :: rest => if k1 = k then some v else mapGet rest k

/-- Builtin `delete(m, k)`. -/
def mapDelete {α : Type} (m : List (String × α)) (k : String) : List (String × α) :=
  m.filter (fun p => decide (p.1 ≠ k))

/-- Assignment `m[k] = v`: any previous entry for `k` is replaced. -/
def mapSet {α : Type} (m : List (String × α)) (k : String) (v : α) : List (String × α) :=
  (k, v) :: mapDelete m k

/-! ## Connection cache -/

/-- Source `connHostsMap` (the mutex serialises the operations below). -/
structure connHostsMap where
  v : List (String × Client)
deriving DecidableEq, Repr

/-- Source `connHostsMap.Get`. -/
def connHostsMap.Get (c : connHostsMap) (hostname : String) : Option Client :=
  mapGet c.v hostname

/-- Source `connHostsMap.Set`. -/
def connHostsMap.Set (c : connHostsMap) (hostname : String) (v : Client) : connHostsMap :=
  { v := mapSet c.v hostname v }

/-- Source `connHostsMap.Close`: the entry is deleted, and the client that was
stored (if any) is the one on which `Close` is then called. -/
def connHostsMap.Close (c : connHostsMap) (hostname : String) : connHostsMap × Option Client :=
  ({ v := mapDelete c.v hostname }, mapGet c.v hostname)

/-- The cache at process start: `make(map[string]*ssh.Client)`. -/
def connectedHosts0 : connHostsMap :=
  { v := [] }

/-! ## Process configuration and external primitives -/

/-- Process-wide settings read by the engine. -/
structure Config where
  sshAuthSock : String
  maxConnections : Nat
  disconnectAfterUse : Bool
deriving DecidableEq, Repr

/-- The primitives outside the program: the SSH transport, the agent socket,
the SCP client and the local file system. -/
structure Remote where
  /-- Result of `ssh.Dial("tcp", addr, conf)`; a recovered panic is an error too. -/
  dial : String → Except String Client
  /-- Error of `conn.NewSession()`, if any. -/
  newSession : Client → Option String
  /-- Captured stdout, stderr and error of `session.Run(cmd)`. -/
  run : Client → String → String × String × Option String
  /-- Final outcome of dialling the agent socket: a non-timeout error, if any. -/
  agentDial : Option String
  /-- Error of the whole SCP upload to `addr`, if any: arguments are addr, target, source. -/
  upload : String → String → String → Option String
  /-- Error of `os.Stat(path)`, if any. -/
  stat : String → Option String

/-- Interactions with the agent admission gate. -/
inductive GateOp where
  | acquire
  | release
deriving DecidableEq, Repr

/-- Source `waitAgent`. -/
def waitAgent (cfg : Config) : List GateOp :=
  if cfg.sshAuthSock ≠ "" then [.acquire] else []

/-- Source `releaseAgent`. -/
def releaseAgent (cfg : Config) : List GateOp :=
  if cfg.sshAuthSock ≠ "" then [.release] else []

/-- Source `makeConfig`: the events it submits (the client configuration itself is
consumed by the transport). -/
def makeConfig (cfg : Config) (env : Remote) : List Event :=
  if cfg.sshAuthSock ≠ "" then
    match env.agentDial with
    | some e => [reportErrorToUser ("Cannot open connection to SSH agent: " ++ e)]
    | none => []
  else []

/-! ## SSH executor -/

/-- What one call of `getConnection` returns and does. -/
structure ConnOutcome where
  conn : Except String Client
  cache : connHostsMap
  events : List Event
  dialed : List String
  gate : List GateOp

/-- Source `getConnection`.  After the cache miss the parameter `hostname` is
reassigned by `hostname, port := getHostnameWithPort(hostname)`, and it is this
reassigned value that is reported and used as the key of `Set`. -/
def getConnection (cfg : Config) (env : Remote) (cache : connHostsMap) (hostname : String) :
    ConnOutcome :=
  match cache.Get hostname with
  | some conn => { conn := .ok conn, cache := cache, events := [], dialed := [], gate := [] }
  | none =>
    let gate := waitAgent cfg ++ releaseAgent cfg
    let confEvents := makeConfig cfg env
    let hp := getHostnameWithPort hostname
    let hostname := hp.1
    let port := hp.2
    let addr := hostname ++ ":" ++ port
    match env.dial addr with
    | .error e =>
      { conn := .error e, cache := cache, events := confEvents, dialed := [addr], gate := gate }
    | .ok conn =>
      { conn := .ok conn
        cache := cache.Set hostname conn
        events := confEvents ++ [.ConnectionProgress hostname]
        dialed := [addr]
        gate := gate }

/-- What one call of `executeCmd` returns and does. -/
structure ExecOutcome where
  stdout : String
  stderr : String
  err : Option String
  cache : connHostsMap
  events : List Event
  dialed : List String
  closed : List Client

/-- Source `executeCmd`.  The deferred calls run on return: `session.Close()`,
then `connectedHosts.Close(hostname)` when `disconnectAfterUse` is set; both are
registered only after the session was opened. -/
def executeCmd (cfg : Config) (env : Remote) (cache : connHostsMap) (cmd hostname : String) :
    ExecOutcome :=
  let c := getConnection cfg env cache hostname
  match c.conn with
  | .error e =>
    { stdout := "", stderr := "", err := some e, cache := c.cache, events := c.events,
      dialed := c.dialed, closed := [] }
  | .ok conn =>
    match env.newSession conn with
    | some e =>
      { stdout := "", stderr := "", err := some e, cache := c.cache, events := c.events,
        dialed := c.dialed, closed := [] }
    | none =>
      let r := env.run conn cmd
      let fin := if cfg.disconnectAfterUse then c.cache.Close hostname else (c.cache, none)
      { stdout := r.1, stderr := r.2.1, err := r.2.2, cache := fin.1, events := c.events,
        dialed := c.dialed, closed := fin.2.toList }

/-- The per-host function chosen by `getExecFunc`. -/
inductive ExecFunc where
  | ssh (cmd : String)
  | scp (target source : String)
deriving DecidableEq, Repr

/-- Source `getExecFunc`: the function returned (`none` for nil) and the events
submitted while validating. -/
def getExecFunc (env : Remote) (msg : ProxyRequest) : Option ExecFunc × List Event :=
  if msg.Action = "ssh" then
    if msg.Cmd = "" then (none, [reportCriticalErrorToUser "Empty \x27Cmd\x27"])
    else (some (.ssh msg.Cmd), [])
  else if msg.Action = "scp" then
    if msg.Source = "" then (none, [reportCriticalErrorToUser "Empty \x27Source\x27"])
    else if msg.Target = "" then (none, [reportCriticalErrorToUser "Empty \x27Target\x27"])
    else
      match env.stat msg.Source with
      | some e => (none, [reportCriticalErrorToUser e])
      | none => (some (.scp msg.Target msg.Source), [])
  else (none, [reportCriticalErrorToUser ("Unsupported action: " ++ msg.Action)])

/-- The effective timeout in milliseconds computed at the head of `runAction`. -/
def effectiveTimeout (msg : ProxyRequest) : Nat :=
  if msg.Timeout > 0 then msg.Timeout else defaultTimeout

/-- The duration handed to `time.After`: `time.Millisecond * time.Duration(timeout)`,
a signed 64-bit count of nanoseconds. -/
def deadlineDuration (msg : ProxyRequest) : Int :=
  toInt64 (millisecond * toInt64 (effectiveTimeout msg))

/-- The value `maxConcurrency` of `runAction`. -/
def maxConcurrency (cfg : Config) (msg : ProxyRequest) : Nat :=
  if cfg.maxConnections > 0 then cfg.maxConnections else msg.Hosts.length

/-- Capacity of `make(chan struct, size)` for a `uint64` size on a 64-bit
platform: the size is converted to `int`, and a negative result makes `make`
panic with `makechan: size out of range` (`none`).  The element type is empty, so
no buffer is allocated and every size that fits an `int` succeeds. -/
def makeChan (size : Nat) : Option Nat :=
  if size < 2 ^ 63 then some size else none

/-- The `Reply` built from one received result. -/
def replyOf (r : SshResult) : Event :=
  match r.err with
  | some e => .Reply r.hostname r.stdout r.stderr false e
  | none => .Reply r.hostname r.stdout r.stderr true ""

/-- The collection loop of `runAction`.  The first argument counts the iterations
left; the second lists the results that `select` receives before it takes the
deadline branch, so an exhausted list with iterations left is `goto finish`.
Returns the map `timedOutHosts` and the replies submitted. -/
def collect : Nat → List SshResult → List (String × Bool) → List (String × Bool) × List Event
  | 0, _, t => (t, [])
  | _ + 1, [], t => (t, [])
  | n + 1, r :: rest, t =>
    let out := collect n rest (mapDelete t r.hostname)
    (out.1, replyOf r :: out.2)

/-- The loop after `finish:` closing the cache entry of every key of `timedOutHosts`. -/
def closeTimedOut (cache : connHostsMap) : List String → connHostsMap × List Client
  | [] => (cache, [])
  | h :: rest =>
    let c := cache.Close h
    let out := closeTimedOut c.1 rest
    (out.1, c.2.toList ++ out.2)

/-- What one call of `runAction` does, as seen from the dispatcher goroutine. -/
structure RunOutcome where
  /-- Events the dispatcher submits to `repliesChan`, in order. -/
  events : List Event
  /-- Hosts for which a worker goroutine was started. -/
  workers : List String
  /-- Capacity of `maxConcurrencyCh`, once created. -/
  semaphore : Option Nat
  /-- Duration armed on `timeoutChannel`, once armed. -/
  deadline : Option Int
  /-- The connection cache when `runAction` returns. -/
  cache : connHostsMap
  /-- Clients closed by the dispatcher. -/
  closed : List Client
  /-- Whether the call ended in a run-time panic. -/
  panicked : Bool
deriving DecidableEq, Repr

/-- Source `runAction`, the dispatcher goroutine (the sends of the workers it
starts are interleaved with its own in `replyChannel`).  `arrivals` are the results the dispatcher receives from
`responseChannel` before the deadline branch of `select` is taken, `cache` is the
connection cache as the workers have left it when the dispatcher reaches
`finish`, and `elapsed` is the measured running time in nanoseconds. -/
def runAction (cfg : Config) (env : Remote) (msg : ProxyRequest) (arrivals : List SshResult)
    (cache : connHostsMap) (elapsed : Int) : RunOutcome :=
  match getExecFunc env msg with
  | (none, evs) =>
    { events := evs, workers := [], semaphore := none, deadline := none, cache := cache,
      closed := [], panicked := false }
  | (some _, evs) =>
    let deadline := deadlineDuration msg
    let timedOutHosts : List (String × Bool) := []
    let enable := [Event.EnableReportConnectedHosts true]
    match makeChan (maxConcurrency cfg msg) with
    | none =>
      { events := evs ++ enable, workers := [], semaphore := none, deadline := some deadline,
        cache := cache, closed := [], panicked := true }
    | some capacity =>
      let got := collect msg.Hosts.length arrivals timedOutHosts
      let fin := closeTimedOut cache (got.1.map Prod.fst)
      { events := evs ++ enable ++ got.2 ++
          [Event.DisableReportConnectedHosts true, Event.FinalReply elapsed got.1]
        workers := msg.Hosts
        semaphore := some capacity
        deadline := some deadline
        cache := fin.1
        closed := fin.2
        panicked := false }

/-- The body of the loop of source `runProxy`, for one request. -/
def runProxyStep (cfg : Config) (env : Remote) (msg : ProxyRequest) (arrivals : List SshResult)
    (cache : connHostsMap) (elapsed : Int) : RunOutcome :=
  if msg.Action = "ssh" ∨ msg.Action = "scp" then runAction cfg env msg arrivals cache elapsed
  else
    { events := [reportCriticalErrorToUser ("Unsupported action: " ++ msg.Action)], workers := [],
      semaphore := none, deadline := none, cache := cache, closed := [], panicked := false }

/-! ## Reply multiplexer -/

/-- Source `jsonReplierThread`, run over the events received so far: the result
lists the events that are marshalled and printed, one line each.  The argument is
the local variable `connectionReporting`. -/
def jsonReplierLoop (connectionReporting : Bool) : List Event → List Event
  | [] => []
  | .DisableReportConnectedHosts _ :: rest => jsonReplierLoop false rest
  | .EnableReportConnectedHosts _ :: rest => jsonReplierLoop true rest
  | .ConnectionProgress h :: rest =>
    if !connectionReporting then jsonReplierLoop connectionReporting rest
    else .ConnectionProgress h :: jsonReplierLoop connectionReporting rest
  | e :: rest => e :: jsonReplierLoop connectionReporting rest

/-- Source `jsonReplierThread` from process start: `connectionReporting := true`. -/
def jsonReplierThread (submitted : List Event) : List Event :=
  jsonReplierLoop true submitted

/-! ## Vocabulary of the specification -/

/-- A request the specification calls malformed: an action other than `ssh` or
`scp`, `ssh` without a command, or `scp` with an empty source, an empty target or
a source that does not exist locally. -/
def Malformed (env : Remote) (msg : ProxyRequest) : Prop :=
  (msg.Action ≠ "ssh" ∧ msg.Action ≠ "scp") ∨
  (msg.Action = "ssh" ∧ msg.Cmd = "") ∨
  (msg.Action = "scp" ∧ (msg.Source = "" ∨ msg.Target = "" ∨ (env.stat msg.Source).isSome = true))

/-- A request the runner accepts: `getExecFunc` returns a function. -/
def Accepted (env : Remote) (msg : ProxyRequest) : Prop :=
  (getExecFunc env msg).1.isSome = true

instance (env : Remote) (msg : ProxyRequest) : Decidable (Malformed env msg) := by
  unfold Malformed
  infer_instance

instance (env : Remote) (msg : ProxyRequest) : Decidable (Accepted env msg) := by
  unfold Accepted
  infer_instance

/-- Recognises a `FinalReply`. -/
def Event.isFinalReply : Event → Bool
  | .FinalReply _ _ => true
  | _ => false

/-- Recognises a `Reply`. -/
def Event.isReply : Event → Bool
  | .Reply _ _ _ _ _ => true
  | _ => false

/-- Hosts for which a `Reply` occurs in a sequence of events. -/
def repliedHosts : List Event → List String
  | [] => []
  | .Reply h _ _ _ _ :: rest => h :: repliedHosts rest
  | _ :: rest => repliedHosts rest

/-- The `TimedOutHosts` map of the last `FinalReply` in a sequence of events
(`none` when there is no `FinalReply`). -/
def finalTimedOutHosts : List Event → Option (List (String × Bool))
  | [] => none
  | e :: rest =>
    match finalTimedOutHosts rest with
    | some t => some t
    | none =>
      match e with
      | .FinalReply _ t => some t
      | _ => none

/-- The setting carried by a flag-control message: `some true` for Enable,
`some false` for Disable, `none` for every other event. -/
def Event.flagControl : Event → Option Bool
  | .EnableReportConnectedHosts _ => some true
  | .DisableReportConnectedHosts _ => some false
  | _ => none

/-- Recognises a `ConnectionProgress`. -/
def Event.isConnectionProgress : Event → Bool
  | .ConnectionProgress _ => true
  | _ => false

/-- The setting of the most recent flag-control message in a history of submitted
events, if there is one. -/
def lastFlagControl : List Event → Option Bool
  | [] => none
  | e :: rest =>
    match lastFlagControl rest with
    | some b => some b
    | none => e.flagControl

/-- Following the specification: an event `e` submitted after the history `before`
is written unless it is a flag-control message, or a `ConnectionProgress` that is
not preceded by an Enable message with no later Disable message. -/
def keptAsSpecified (before : List Event) (e : Event) : Bool :=
  if e.flagControl.isSome then false
  else if e.isConnectionProgress then decide (lastFlagControl before = some true)
  else true

/-- Following the specification: the events written for `evs`, submitted after `before`. -/
def writtenAsSpecified (before : List Event) : List Event → List Event
  | [] => []
  | e :: rest =>
    (if keptAsSpecified before e then [e] else []) ++ writtenAsSpecified (before ++ [e]) rest

/-- The amended rule: a `ConnectionProgress` is dropped exactly when the most
recent flag-control message before it is a Disable. -/
def keptUnlessDisabled (before : List Event) (e : Event) : Bool :=
  if e.flagControl.isSome then false
  else if e.isConnectionProgress then decide (lastFlagControl before ≠ some false)
  else true

/-- The events written for `evs`, submitted after `before`, under the amended rule. -/
def writtenUnlessDisabled (before : List Event) : List Event → List Event
  | [] => []
  | e :: rest =>
    (if keptUnlessDisabled before e then [e] else []) ++ writtenUnlessDisabled (before ++ [e]) rest

/-! ## Concrete inputs used in the examples -/

/-- A transport in which every primitive succeeds and every dial yields client 1. -/
def remoteUp : Remote where
  dial := fun _ => .ok 1
  newSession := fun _ => none
  run := fun _ cmd => (cmd, "", none)
  agentDial := none
  upload := fun _ _ _ => none
  stat := fun _ => none

/-- Default settings: no agent socket, no cap, connections kept. -/
def configDefault : Config :=
  { sshAuthSock := "", maxConnections := 0, disconnectAfterUse := false }

/-- Settings with disconnect-after-use switched on. -/
def configDisconnect : Config :=
  { sshAuthSock := "", maxConnections := 0, disconnectAfterUse := true }

/-- Settings with at most `m` simultaneous connections. -/
def configCap (m : Nat) : Config :=
  { sshAuthSock := "", maxConnections := m, disconnectAfterUse := false }

/-- An `ssh` request running `cmd` on `hosts` with timeout `t`. -/
def sshRequest (cmd : String) (hosts : List String) (t : Nat) : ProxyRequest :=
  { Action := "ssh", Password := "", Cmd := cmd, Source := "", Target := "", Hosts := hosts,
    Timeout := t }

/-! ## Agent admission gate -/

/-- Source constant `maxOpensshAgentConnections`, the default of flag `-c`. -/
def maxOpensshAgentConnections : Nat := 128

/-- State of source `agentConnectionManagerThread`: its local variable `freeConn`
(a `uint64`), together with a count kept for the proofs only, the tickets granted
whose release the thread has not yet received. -/
structure GateState where
  freeConn : Nat
  outstanding : Nat
deriving DecidableEq, Repr

/-- The state on entry to the loop: `freeConn := maxConn`. -/
def gateStart (maxConn : Nat) : GateState :=
  { freeConn := maxConn, outstanding := 0 }

/-- One iteration of the loop of source `agentConnectionManagerThread`, for the
branch of `select` that is taken.  `acquire` is the receive on `reqCh`, which is
nil and therefore never taken when `freeConn <= 0`; it runs `freeConn--` and
answers the waiter.  `release` is the receive on `freeCh`; it runs `freeConn++`.
Both are `uint64` operations and wrap around. -/
def agentConnectionManagerStep (s : GateState) : GateOp → Option GateState
  | .acquire =>
    if s.freeConn ≤ 0 then none
    else some { freeConn := (s.freeConn + (2 ^ 64 - 1)) % 2 ^ 64, outstanding := s.outstanding + 1 }
  | .release =>
    some { freeConn := (s.freeConn + 1) % 2 ^ 64, outstanding := s.outstanding - 1 }

/-- The states the gate reaches from `freeConn = maxConn` when every release it
receives was sent by a caller that holds a ticket. -/
inductive GateReachable (maxConn : Nat) : GateState → Prop where
  | start : GateReachable maxConn (gateStart maxConn)
  | grant {s t : GateState} : GateReachable maxConn s →
      agentConnectionManagerStep s .acquire = some t → GateReachable maxConn t
  | release {s t : GateState} : GateReachable maxConn s → 0 < s.outstanding →
      agentConnectionManagerStep s .release = some t → GateReachable maxConn t

/-- Runs the gate over a sequence of selected branches; `none` when a branch is
not enabled or a release arrives while no ticket is held. -/
def gateRun (s : GateState) : List GateOp → Option GateState
  | [] => some s
  | .acquire :: rest =>
    match agentConnectionManagerStep s .acquire with
    | none => none
    | some t => gateRun t rest
  | .release :: rest =>
    if s.outstanding = 0 then none
    else
      match agentConnectionManagerStep s .release with
      | none => none
      | some t => gateRun t rest

/-! ## The reply channel during one request -/

theorem indexByte_eq_none {c : Char} {s : List Char} : indexByte c s = none ↔ c ∉ s := by
  induction s with
  | nil => simp [indexByte]
  | cons x xs ih =>
    by_cases hx : x = c
    · simp [indexByte, hx]
    · have hx2 : ¬ c = x := fun h => hx h.symm
      simp [indexByte, hx, hx2, ih]

theorem indexByte_eq_some {c : Char} {s : List Char} {m : Nat} (h : indexByte c s = some m) :
    c ∉ s.take m ∧ s.take m ++ c :: s.drop (m + 1) = s := by
  induction s generalizing m with
  | nil => simp [indexByte] at h
  | cons x xs ih =>
    by_cases hx : x = c
    · simp [indexByte, hx] at h
      subst h
      simp [hx]
    · have hx2 : ¬ c = x := fun h => hx h.symm
      cases hk : indexByte c xs with
      | none => simp [indexByte, hx, hk] at h
      | some k =>
        simp [indexByte, hx, hk] at h
        subst h
        have := ih hk
        simp [hx2, this.1, this.2]

theorem SplitN_two_of_not_mem {s : List Char} (h : ':' ∉ s) :
    SplitN s ':' 2 = [s] := by
  have hi : indexByte ':' s = none := indexByte_eq_none.mpr h
  cases s with
  | nil => simp [SplitN, genSplitLoop]
  | cons x xs => simp [SplitN, genSplitLoop, hi]

theorem SplitN_two_of_mem {s : List Char} (h : ':' ∈ s) :
    ∃ a b, SplitN s ':' 2 = [a, b] ∧ ':' ∉ a ∧ a ++ ':' :: b = s := by
  cases hi : indexByte ':' s with
  | none => exact absurd h (indexByte_eq_none.mp hi)
  | some m =>
    have hm := indexByte_eq_some hi
    refine ⟨s.take m, s.drop (m + 1), ?_, hm.1, hm.2⟩
    cases s with
    | nil => simp at h
    | cons x xs => simp [SplitN, genSplitLoop, hi]

/-- C10: `getHostnameWithPort s` is `(s, "22")` when `s` has no colon; otherwise it
is a pair `(h, p)` in which `h` has no colon and `h ++ ":" ++ p = s`. -/
theorem getHostnameWithPort_spec (s : String) :
    (':' ∉ s.toList ∧ getHostnameWithPort s = (s, "22")) ∨
    (':' ∈ s.toList ∧ ':' ∉ (getHostnameWithPort s).1.toList ∧
      (getHostnameWithPort s).1 ++ ":" ++ (getHostnameWithPort s).2 = s) := by
  by_cases h : ':' ∈ s.toList
  · right
    obtain ⟨a, b, hs, ha, hab⟩ := SplitN_two_of_mem h
    have hgo : getHostnameWithPort s = (String.mk a, String.mk b) := by
      unfold getHostnameWithPort
      rw [hs]
    refine ⟨h, ?_, ?_⟩
    · rw [hgo]
      exact ha
    · rw [hgo]
      apply String.ext
      simpa [String.data_append] using hab
  · left
    refine ⟨h, ?_⟩
    unfold getHostnameWithPort
    rw [SplitN_two_of_not_mem h]

/-! ## Validation and the dispatcher's event sequence -/

theorem replyOf_isReply (r : SshResult) : (replyOf r).isReply = true := by
  unfold replyOf
  cases r.err <;> rfl

theorem collect_replies (n : Nat) (arrivals : List SshResult) (t : List (String × Bool)) :
    ∀ e ∈ (collect n arrivals t).2, e.isReply = true := by
  induction n generalizing arrivals t with
  | zero => simp [collect]
  | succ k ih =>
    cases arrivals with
    | nil => simp [collect]
    | cons r rest =>
      intro e he
      simp only [collect, List.mem_cons] at he
      rcases he with rfl | he
      · exact replyOf_isReply r
      · exact ih rest _ e he

theorem isFinalReply_of_isReply {e : Event} (h : e.isReply = true) : e.isFinalReply = false := by
  cases e <;> simp_all [Event.isReply, Event.isFinalReply]

theorem getExecFunc_events_of_accepted {env : Remote} {msg : ProxyRequest}
    (h : Accepted env msg) : (getExecFunc env msg).2 = [] := by
  unfold Accepted at h
  unfold getExecFunc at h ⊢
  split_ifs at h ⊢ <;> first | rfl | simp at h | skip
  split at h <;> simp_all

theorem getExecFunc_of_accepted {env : Remote} {msg : ProxyRequest}
    (h : Accepted env msg) : ∃ f, getExecFunc env msg = (some f, []) := by
  have h2 := getExecFunc_events_of_accepted h
  unfold Accepted at h
  obtain ⟨f, hf⟩ := Option.isSome_iff_exists.mp h
  exact ⟨f, Prod.ext hf h2⟩

theorem accepted_iff_not_malformed (env : Remote) (msg : ProxyRequest) :
    Accepted env msg ↔ ¬ Malformed env msg := by
  unfold Accepted Malformed getExecFunc
  by_cases h1 : msg.Action = "ssh"
  · by_cases h2 : msg.Cmd = "" <;> simp [h1, h2]
  · by_cases h3 : msg.Action = "scp"
    · by_cases h4 : msg.Source = ""
      · simp [h3, h4]
      · by_cases h5 : msg.Target = ""
        · simp [h3, h4, h5]
        · cases h6 : env.stat msg.Source <;> simp [h3, h4, h5, h6]
    · simp [h1, h3]

theorem makeChan_of_lt {size : Nat} (h : size < 2 ^ 63) : makeChan size = some size := by
  unfold makeChan
  rw [if_pos h]

theorem maxConcurrency_lt {cfg : Config} {msg : ProxyRequest} (hcap : cfg.maxConnections < 2 ^ 63)
    (hlen : msg.Hosts.length < 2 ^ 63) : maxConcurrency cfg msg < 2 ^ 63 := by
  unfold maxConcurrency
  split_ifs <;> assumption

/-- C3: handling a malformed request submits exactly one event, a `UserError` with
`IsCritical = true` (so no `Reply`, no `FinalReply` and no flag-control message),
and starts no per-host worker. -/
theorem runProxyStep_malformed (cfg : Config) (env : Remote) (msg : ProxyRequest)
    (arrivals : List SshResult) (cache : connHostsMap) (elapsed : Int)
    (h : Malformed env msg) :
    (∃ m, (runProxyStep cfg env msg arrivals cache elapsed).events = [Event.UserError true m]) ∧
    (runProxyStep cfg env msg arrivals cache elapsed).workers = [] := by
  unfold Malformed at h
  unfold runProxyStep runAction getExecFunc reportCriticalErrorToUser
  by_cases h1 : msg.Action = "ssh"
  · have h2 : msg.Cmd = "" := by
      rcases h with h | h | h
      · exact absurd h1 h.1
      · exact h.2
      · rw [h1] at h
        exact absurd h.1 (by decide)
    simp [h1, h2]
  · by_cases h3 : msg.Action = "scp"
    · have h4 : msg.Source = "" ∨ msg.Target = "" ∨ (env.stat msg.Source).isSome = true := by
        rcases h with h | h | h
        · exact absurd h3 h.2
        · exact absurd h.1 h1
        · exact h.2
      by_cases h5 : msg.Source = ""
      · simp [h3, h5]
      · by_cases h6 : msg.Target = ""
        · simp [h3, h5, h6]
        · have h7 : (env.stat msg.Source).isSome = true := by
            rcases h4 with h | h | h
            · exact absurd h h5
            · exact absurd h h6
            · exact h
          obtain ⟨e, he⟩ := Option.isSome_iff_exists.mp h7
          simp [h3, h5, h6, he]
    · simp [h1, h3]

/-- Witness for C3: the request of the bad-request scenario, `ssh` without `Cmd`. -/
theorem runProxyStep_malformed_witness :
    Malformed remoteUp (sshRequest "" ["h"] 0) ∧
    ((∃ m, (runProxyStep configDefault remoteUp (sshRequest "" ["h"] 0) [] connectedHosts0
        0).events = [Event.UserError true m]) ∧
      (runProxyStep configDefault remoteUp (sshRequest "" ["h"] 0) [] connectedHosts0
        0).workers = []) :=
  ⟨Or.inr (Or.inl ⟨rfl, rfl⟩),
    runProxyStep_malformed configDefault remoteUp (sshRequest "" ["h"] 0) [] connectedHosts0 0
      (Or.inr (Or.inl ⟨rfl, rfl⟩))⟩

/-- The dispatcher's own sends: for an accepted request and any schedule of
arrivals, the events the dispatcher of `runAction` submits end with a
`FinalReply`, no earlier one is a `FinalReply`, and every `Reply` lies among the
earlier ones.  The configured cap and the host count fit a Go `int`, so that the
semaphore channel can be created. -/
theorem runAction_final_reply_last (cfg : Config) (env : Remote) (msg : ProxyRequest)
    (arrivals : List SshResult) (cache : connHostsMap) (elapsed : Int)
    (hacc : Accepted env msg) (hcap : cfg.maxConnections < 2 ^ 63)
    (hlen : msg.Hosts.length < 2 ^ 63) :
    ∃ pre t,
      (runAction cfg env msg arrivals cache elapsed).events = pre ++ [Event.FinalReply elapsed t] ∧
      (∀ e ∈ pre, e.isFinalReply = false) ∧
      ((runAction cfg env msg arrivals cache elapsed).events.filter Event.isFinalReply).length = 1 ∧
      (∀ e ∈ (runAction cfg env msg arrivals cache elapsed).events, e.isReply = true → e ∈ pre) := by
  obtain ⟨f, hf⟩ := getExecFunc_of_accepted hacc
  have hmc := makeChan_of_lt (maxConcurrency_lt hcap hlen)
  have hpre : ∀ e ∈ Event.EnableReportConnectedHosts true ::
      ((collect msg.Hosts.length arrivals []).2 ++ [Event.DisableReportConnectedHosts true]),
      e.isFinalReply = false := by
    intro e he
    simp only [List.mem_cons, List.mem_append, List.mem_singleton, List.not_mem_nil,
      or_false] at he
    rcases he with rfl | he | rfl
    · rfl
    · exact isFinalReply_of_isReply (collect_replies _ _ _ e he)
    · rfl
  have hev : (runAction cfg env msg arrivals cache elapsed).events =
      (Event.EnableReportConnectedHosts true ::
        ((collect msg.Hosts.length arrivals []).2 ++ [Event.DisableReportConnectedHosts true]))
      ++ [Event.FinalReply elapsed (collect msg.Hosts.length arrivals []).1] := by
    simp [runAction, hf, hmc]
  refine ⟨_, _, hev, hpre, ?_, ?_⟩
  · rw [hev, List.filter_append, List.filter_eq_nil_iff.mpr]
    · simp [Event.isFinalReply]
    · intro e he
      simp [hpre e he]
  · intro e he hr
    rw [hev] at he
    rcases List.mem_append.mp he with he | he
    · exact he
    · simp only [List.mem_singleton] at he
      subst he
      simp [Event.isReply] at hr

/-! ## The timed-out set -/

theorem mapDelete_nil {α : Type} (k : String) : mapDelete ([] : List (String × α)) k = [] := rfl

theorem collect_timedOut_nil (n : Nat) (arrivals : List SshResult) :
    (collect n arrivals []).1 = [] := by
  induction n generalizing arrivals with
  | zero => rfl
  | succ k ih =>
    cases arrivals with
    | nil => rfl
    | cons r rest =>
      simp only [collect, mapDelete_nil]
      exact ih rest

/-- In the source the map `timedOutHosts` is created empty and only ever deleted
from, so whatever the request and the schedule, an accepted request that runs to
its end reports an empty `TimedOutHosts` and leaves the cache untouched. -/
theorem runAction_timedOutHosts_nil (cfg : Config) (env : Remote) (msg : ProxyRequest)
    (arrivals : List SshResult) (cache : connHostsMap) (elapsed : Int)
    (hacc : Accepted env msg) (hcap : cfg.maxConnections < 2 ^ 63)
    (hlen : msg.Hosts.length < 2 ^ 63) :
    Event.FinalReply elapsed [] ∈ (runAction cfg env msg arrivals cache elapsed).events ∧
    (runAction cfg env msg arrivals cache elapsed).cache = cache := by
  obtain ⟨f, hf⟩ := getExecFunc_of_accepted hacc
  have hmc := makeChan_of_lt (maxConcurrency_lt hcap hlen)
  simp [runAction, hf, hmc, collect_timedOut_nil, closeTimedOut]

/-- C1, evaluated at the failing input: for the accepted request `ssh hostname` on
the single host `h`, when the deadline fires before any result is consumed, the
dispatcher submits no `Reply` for `h`, and yet `h` is not a key of the
`TimedOutHosts` of its `FinalReply`, which is empty. -/
theorem runAction_deadline_first_timedOutHosts :
    Accepted remoteUp (sshRequest "hostname" ["h"] 1) ∧
    "h" ∈ (sshRequest "hostname" ["h"] 1).Hosts ∧
    (runAction configDefault remoteUp (sshRequest "hostname" ["h"] 1) [] connectedHosts0 0).events
      = [Event.EnableReportConnectedHosts true, Event.DisableReportConnectedHosts true,
          Event.FinalReply 0 []] ∧
    "h" ∉ repliedHosts
      (runAction configDefault remoteUp (sshRequest "hostname" ["h"] 1) [] connectedHosts0
        0).events ∧
    finalTimedOutHosts
      (runAction configDefault remoteUp (sshRequest "hostname" ["h"] 1) [] connectedHosts0
        0).events = some [] ∧
    mapGet ([] : List (String × Bool)) "h" ≠ some true := by
  decide

/-! ## The connection cache -/

/-- C4, evaluated at the failing input: `getConnection "remote1:2222"` on an empty
cache dials client 1 but stores it under the key `remote1`, so the cache has no
entry for the address as typed and a second `getConnection "remote1:2222"` dials
again. -/
theorem getConnection_host_port_not_cached :
    (getConnection configDefault remoteUp connectedHosts0 "remote1:2222").cache
      = { v := [("remote1", 1)] } ∧
    (getConnection configDefault remoteUp connectedHosts0 "remote1:2222").dialed
      = ["remote1:2222"] ∧
    (getConnection configDefault remoteUp connectedHosts0 "remote1:2222").cache.Get "remote1:2222"
      = none ∧
    (getConnection configDefault remoteUp
      (getConnection configDefault remoteUp connectedHosts0 "remote1:2222").cache
      "remote1:2222").dialed = ["remote1:2222"] := by
  decide

/-- C5, evaluated at the failing input: with disconnect-after-use on and an empty
cache, `executeCmd "hostname" "remote1:2222"` connects, opens a session, runs the
command without error and returns, and the cache still holds the entry
`remote1 ↦ 1`; no client was closed. -/
theorem executeCmd_disconnect_leaves_entry :
    (executeCmd configDisconnect remoteUp connectedHosts0 "hostname" "remote1:2222").err = none ∧
    (executeCmd configDisconnect remoteUp connectedHosts0 "hostname" "remote1:2222").cache
      = { v := [("remote1", 1)] } ∧
    (executeCmd configDisconnect remoteUp connectedHosts0 "hostname" "remote1:2222").cache
      ≠ connectedHosts0 ∧
    (executeCmd configDisconnect remoteUp connectedHosts0 "hostname" "remote1:2222").closed = [] := by
  decide

/-- C6, evaluated at the failing input: the cache holds `h ↦ 7`, the request names
host `h`, and the deadline fires before the result of `h` is consumed; when
`FinalReply` is submitted the entry is still in the cache and nothing was closed. -/
theorem runAction_deadline_keeps_entry :
    (runAction configDefault remoteUp (sshRequest "sleep 100" ["h"] 1) []
      { v := [("h", 7)] } 0).events
      = [Event.EnableReportConnectedHosts true, Event.DisableReportConnectedHosts true,
          Event.FinalReply 0 []] ∧
    (runAction configDefault remoteUp (sshRequest "sleep 100" ["h"] 1) []
      { v := [("h", 7)] } 0).cache.Get "h" = some 7 ∧
    (runAction configDefault remoteUp (sshRequest "sleep 100" ["h"] 1) []
      { v := [("h", 7)] } 0).closed = [] := by
  decide

theorem getHostnameWithPort_of_not_mem {s : String} (h : ':' ∉ s.toList) :
    getHostnameWithPort s = (s, "22") := by
  unfold getHostnameWithPort
  rw [SplitN_two_of_not_mem h]

theorem getHostnameWithPort_fst_ne {s : String} (h : ':' ∈ s.toList) :
    (getHostnameWithPort s).1 ≠ s := by
  obtain ⟨a, b, hs, ha, _⟩ := SplitN_two_of_mem h
  have hgo : getHostnameWithPort s = (String.mk a, String.mk b) := by
    unfold getHostnameWithPort
    rw [hs]
  rw [hgo]
  intro heq
  have hdata : a = s.toList := congrArg String.toList heq
  exact ha (hdata ▸ h)

theorem mapDelete_cons_of_eq {α : Type} (m : List (String × α)) (k : String) (v : α) :
    mapDelete ((k, v) :: m) k = mapDelete m k := by
  unfold mapDelete
  exact List.filter_cons_of_neg (by simp)

theorem mapDelete_cons_of_ne {α : Type} (m : List (String × α)) {k1 k : String} (v : α)
    (h : k1 ≠ k) : mapDelete ((k1, v) :: m) k = (k1, v) :: mapDelete m k := by
  unfold mapDelete
  exact List.filter_cons_of_pos (by simpa using h)

theorem mapGet_cons_self {α : Type} (m : List (String × α)) (k : String) (v : α) :
    mapGet ((k, v) :: m) k = some v := by
  unfold mapGet
  rw [if_pos rfl]

theorem mapGet_cons_of_ne {α : Type} (m : List (String × α)) {k1 k : String} (v : α)
    (h : k1 ≠ k) : mapGet ((k1, v) :: m) k = mapGet m k := by
  conv_lhs => unfold mapGet
  rw [if_neg h]

theorem mapGet_mapDelete_of_ne {α : Type} (m : List (String × α)) {k k2 : String}
    (h : k ≠ k2) : mapGet (mapDelete m k) k2 = mapGet m k2 := by
  induction m with
  | nil => rfl
  | cons p rest ih =>
    obtain ⟨k1, v⟩ := p
    by_cases h1 : k1 = k
    · subst h1
      rw [mapDelete_cons_of_eq, ih, mapGet_cons_of_ne _ _ h]
    · rw [mapDelete_cons_of_ne _ _ h1]
      by_cases h2 : k1 = k2
      · subst h2
        rw [mapGet_cons_self, mapGet_cons_self]
      · rw [mapGet_cons_of_ne _ _ h2, mapGet_cons_of_ne _ _ h2, ih]

theorem mapGet_mapSet_self {α : Type} (m : List (String × α)) (k : String) (v : α) :
    mapGet (mapSet m k v) k = some v := by
  unfold mapSet
  exact mapGet_cons_self _ _ _

theorem mapGet_mapSet_of_ne {α : Type} (m : List (String × α)) {k k2 : String} (v : α)
    (h : k ≠ k2) : mapGet (mapSet m k v) k2 = mapGet m k2 := by
  unfold mapSet
  rw [mapGet_cons_of_ne _ _ h, mapGet_mapDelete_of_ne m h]

/-- The defect behind C4 in general: for every address with a port segment that
misses the cache, a successful dial leaves the cache without an entry for that
address, so every later `getConnection` for it misses again. -/
theorem getConnection_host_port_miss_persists (cfg : Config) (env : Remote)
    (cache : connHostsMap) (addr : String) (c : Client)
    (hcolon : ':' ∈ addr.toList) (hmiss : cache.Get addr = none)
    (hdial : env.dial ((getHostnameWithPort addr).1 ++ ":" ++ (getHostnameWithPort addr).2)
      = .ok c) :
    (getConnection cfg env cache addr).conn = .ok c ∧
    (getConnection cfg env cache addr).cache.Get addr = none := by
  have hne := getHostnameWithPort_fst_ne hcolon
  unfold getConnection
  simp only [hmiss, hdial]
  refine ⟨trivial, ?_⟩
  unfold connHostsMap.Get connHostsMap.Set
  unfold connHostsMap.Get at hmiss
  show mapGet (mapSet cache.v (getHostnameWithPort addr).1 c) addr = none
  rw [mapGet_mapSet_of_ne _ _ hne]
  exact hmiss

/-- For an address without a port segment the cache behaves as the specification
says: after a miss and a successful dial, the address maps to the new client and
the next `getConnection` returns it without dialling. -/
theorem getConnection_plain_host_cached (cfg : Config) (env : Remote)
    (cache : connHostsMap) (addr : String) (c : Client)
    (hplain : ':' ∉ addr.toList) (hmiss : cache.Get addr = none)
    (hdial : env.dial (addr ++ ":" ++ "22") = .ok c) :
    (getConnection cfg env cache addr).cache.Get addr = some c ∧
    (getConnection cfg env (getConnection cfg env cache addr).cache addr).conn = .ok c ∧
    (getConnection cfg env (getConnection cfg env cache addr).cache addr).dialed = [] := by
  have hgo := getHostnameWithPort_of_not_mem hplain
  have hcache : (getConnection cfg env cache addr).cache = cache.Set addr c := by
    unfold getConnection
    simp only [hmiss, hgo, hdial]
  have hget : (cache.Set addr c).Get addr = some c := by
    unfold connHostsMap.Get connHostsMap.Set
    exact mapGet_mapSet_self _ _ _
  rw [hcache]
  refine ⟨hget, ?_, ?_⟩
  · unfold getConnection
    simp only [hget]
  · unfold getConnection
    simp only [hget]

/-- The defect behind C5 in general: with disconnect-after-use on and an empty
cache, a successful `executeCmd` on any address with a port segment returns with
the new client still cached under the host part. -/
theorem executeCmd_host_port_entry_stays (cfg : Config) (env : Remote) (cmd addr : String)
    (c : Client) (hflag : cfg.disconnectAfterUse = true) (hcolon : ':' ∈ addr.toList)
    (hdial : env.dial ((getHostnameWithPort addr).1 ++ ":" ++ (getHostnameWithPort addr).2)
      = .ok c)
    (hsession : env.newSession c = none) :
    (executeCmd cfg env connectedHosts0 cmd addr).cache
      = { v := [((getHostnameWithPort addr).1, c)] } ∧
    (executeCmd cfg env connectedHosts0 cmd addr).closed = [] := by
  have hne := getHostnameWithPort_fst_ne hcolon
  have hconn : getConnection cfg env connectedHosts0 addr =
      { conn := .ok c, cache := { v := [((getHostnameWithPort addr).1, c)] },
        events := makeConfig cfg env ++ [.ConnectionProgress (getHostnameWithPort addr).1],
        dialed := [(getHostnameWithPort addr).1 ++ ":" ++ (getHostnameWithPort addr).2],
        gate := waitAgent cfg ++ releaseAgent cfg } := by
    unfold getConnection
    simp only [connectedHosts0, connHostsMap.Get, mapGet, hdial]
    rfl
  unfold executeCmd
  simp only [hconn, hsession, hflag, if_true, connHostsMap.Close]
  rw [mapDelete_cons_of_ne _ _ hne, mapGet_cons_of_ne _ _ hne]
  exact ⟨rfl, rfl⟩

/-- For an address without a port segment disconnect-after-use works as the
specification says: a successful `executeCmd` on an empty cache returns with the
cache empty again and the client closed. -/
theorem executeCmd_plain_host_evicted (cfg : Config) (env : Remote) (cmd addr : String)
    (c : Client) (hflag : cfg.disconnectAfterUse = true) (hplain : ':' ∉ addr.toList)
    (hdial : env.dial (addr ++ ":" ++ "22") = .ok c) (hsession : env.newSession c = none) :
    (executeCmd cfg env connectedHosts0 cmd addr).cache = connectedHosts0 ∧
    (executeCmd cfg env connectedHosts0 cmd addr).closed = [c] := by
  have hgo := getHostnameWithPort_of_not_mem hplain
  have hconn : getConnection cfg env connectedHosts0 addr =
      { conn := .ok c, cache := { v := [(addr, c)] },
        events := makeConfig cfg env ++ [.ConnectionProgress addr],
        dialed := [addr ++ ":" ++ "22"],
        gate := waitAgent cfg ++ releaseAgent cfg } := by
    unfold getConnection
    simp only [connectedHosts0, connHostsMap.Get, mapGet, hgo, hdial]
    rfl
  unfold executeCmd
  simp only [hconn, hsession, hflag, if_true, connHostsMap.Close]
  rw [mapDelete_cons_of_eq, mapGet_cons_self]
  exact ⟨rfl, rfl⟩

/-! ## Concurrency cap and deadline -/

/-- C7, counterexample: with `maxConnections = 2` and a single host the semaphore
has capacity 2, not `min 1 2 = 1`. -/
theorem runAction_semaphore_not_min :
    (runAction (configCap 2) remoteUp (sshRequest "hostname" ["a"] 0) [] connectedHosts0
      0).semaphore = some 2 ∧
    (runAction (configCap 2) remoteUp (sshRequest "hostname" ["a"] 0) [] connectedHosts0
      0).semaphore ≠
      some (min (sshRequest "hostname" ["a"] 0).Hosts.length (configCap 2).maxConnections) := by
  decide

/-- C7, amended: for an accepted request and a cap that fits a Go `int`, the
semaphore created by `runAction` has capacity `maxConnections` when
`maxConnections > 0`, whatever the number of hosts, and capacity `|Hosts|` when
`maxConnections = 0`; it is `min |Hosts| maxConnections` whenever the positive cap
does not exceed the number of hosts. -/
theorem runAction_semaphore_capacity (cfg : Config) (env : Remote) (msg : ProxyRequest)
    (arrivals : List SshResult) (cache : connHostsMap) (elapsed : Int)
    (hacc : Accepted env msg) (hcap : cfg.maxConnections < 2 ^ 63)
    (hlen : msg.Hosts.length < 2 ^ 63) :
    (runAction cfg env msg arrivals cache elapsed).semaphore =
      some (if cfg.maxConnections > 0 then cfg.maxConnections else msg.Hosts.length) ∧
    (0 < cfg.maxConnections → cfg.maxConnections ≤ msg.Hosts.length →
      (runAction cfg env msg arrivals cache elapsed).semaphore =
        some (min msg.Hosts.length cfg.maxConnections)) := by
  obtain ⟨f, hf⟩ := getExecFunc_of_accepted hacc
  have hmc := makeChan_of_lt (maxConcurrency_lt hcap hlen)
  have hsem : (runAction cfg env msg arrivals cache elapsed).semaphore =
      some (maxConcurrency cfg msg) := by
    simp [runAction, hf, hmc]
  refine ⟨by rw [hsem]; rfl, ?_⟩
  intro hpos hle
  rw [hsem]
  unfold maxConcurrency
  rw [if_pos hpos, Nat.min_eq_right hle]

/-- Witness for C7 (amended): the concurrency-cap scenario, three hosts and a cap of 1. -/
theorem runAction_semaphore_capacity_witness :
    Accepted remoteUp (sshRequest "hostname" ["remote1:2222", "remote2:2222", "remote3:2222"] 1000) ∧
    (configCap 1).maxConnections < 2 ^ 63 ∧
    (runAction (configCap 1) remoteUp
      (sshRequest "hostname" ["remote1:2222", "remote2:2222", "remote3:2222"] 1000) []
      connectedHosts0 0).semaphore = some 1 :=
  ⟨by decide, by decide,
    (runAction_semaphore_capacity (configCap 1) remoteUp
      (sshRequest "hostname" ["remote1:2222", "remote2:2222", "remote3:2222"] 1000) []
      connectedHosts0 0 (by decide) (by decide) (by decide)).1⟩

theorem toInt64_of_range {x : Int} (h1 : -2 ^ 63 ≤ x) (h2 : x < 2 ^ 63) : toInt64 x = x := by
  unfold toInt64
  norm_num at h1 h2 ⊢
  omega

theorem runAction_deadline_eq (cfg : Config) (env : Remote) (msg : ProxyRequest)
    (arrivals : List SshResult) (cache : connHostsMap) (elapsed : Int)
    (hacc : Accepted env msg) :
    (runAction cfg env msg arrivals cache elapsed).deadline = some (deadlineDuration msg) := by
  obtain ⟨f, hf⟩ := getExecFunc_of_accepted hacc
  unfold runAction
  rw [hf]
  cases makeChan (maxConcurrency cfg msg) <;> rfl

/-- C8, counterexample: for `Timeout = 9223372036855` the armed duration is
`-9223372036854551616` nanoseconds: not `Timeout` milliseconds, and not positive. -/
theorem runAction_deadline_overflow :
    (runAction configDefault remoteUp (sshRequest "hostname" ["h"] 9223372036855) []
      connectedHosts0 0).deadline = some (-9223372036854551616) ∧
    (sshRequest "hostname" ["h"] 9223372036855).Timeout < 2 ^ 64 ∧
    (runAction configDefault remoteUp (sshRequest "hostname" ["h"] 9223372036855) []
      connectedHosts0 0).deadline ≠ some (millisecond * 9223372036855) ∧
    ¬ (0 : Int) < -9223372036854551616 := by
  decide

/-- C8, amended: for an accepted request whose `Timeout` is at most
`9223372036854` milliseconds, the duration armed by `runAction` is exactly
`Timeout` milliseconds when `Timeout > 0` and exactly 30000 milliseconds when
`Timeout = 0`, and it is positive. -/
theorem runAction_deadline_in_range (cfg : Config) (env : Remote) (msg : ProxyRequest)
    (arrivals : List SshResult) (cache : connHostsMap) (elapsed : Int)
    (hacc : Accepted env msg) (ht : msg.Timeout ≤ 9223372036854) :
    (runAction cfg env msg arrivals cache elapsed).deadline =
      some (millisecond * (if msg.Timeout > 0 then (msg.Timeout : Int) else 30000)) ∧
    (0 : Int) < millisecond * (if msg.Timeout > 0 then (msg.Timeout : Int) else 30000) := by
  rw [runAction_deadline_eq cfg env msg arrivals cache elapsed hacc]
  have hval : ((effectiveTimeout msg : Nat) : Int) =
      if msg.Timeout > 0 then (msg.Timeout : Int) else 30000 := by
    unfold effectiveTimeout defaultTimeout
    split_ifs <;> simp
  have hpos : 0 < effectiveTimeout msg ∧ effectiveTimeout msg ≤ 9223372036854 := by
    unfold effectiveTimeout defaultTimeout
    split_ifs <;> omega
  have h1 : toInt64 (effectiveTimeout msg) = effectiveTimeout msg :=
    toInt64_of_range (by omega) (by norm_num; omega)
  have h2 : toInt64 (millisecond * (effectiveTimeout msg : Int))
      = millisecond * (effectiveTimeout msg : Int) := by
    apply toInt64_of_range <;> unfold millisecond <;> norm_num <;> omega
  unfold deadlineDuration
  rw [h1, h2, hval.symm]
  refine ⟨rfl, ?_⟩
  unfold millisecond
  omega

/-- Witness for C8 (amended): the basic scenario, `Timeout = 15000`. -/
theorem runAction_deadline_in_range_witness :
    Accepted remoteUp (sshRequest "hostname" ["h"] 15000) ∧
    (sshRequest "hostname" ["h"] 15000).Timeout ≤ 9223372036854 ∧
    (runAction configDefault remoteUp (sshRequest "hostname" ["h"] 15000) [] connectedHosts0
      0).deadline = some 15000000000 :=
  ⟨by decide, by decide,
    (runAction_deadline_in_range configDefault remoteUp (sshRequest "hostname" ["h"] 15000) []
      connectedHosts0 0 (by decide) (by decide)).1⟩

/-! ## The reply multiplexer -/

theorem lastFlagControl_append_singleton (before : List Event) (e : Event) :
    lastFlagControl (before ++ [e]) =
      match e.flagControl with
      | some b => some b
      | none => lastFlagControl before := by
  induction before with
  | nil =>
    simp only [List.nil_append, lastFlagControl]
    cases e.flagControl <;> rfl
  | cons x xs ih =>
    have hstep : lastFlagControl (x :: (xs ++ [e])) =
        match lastFlagControl (xs ++ [e]) with
        | some b => some b
        | none => x.flagControl := rfl
    have hhead : lastFlagControl (x :: xs) =
        match lastFlagControl xs with
        | some b => some b
        | none => x.flagControl := rfl
    rw [List.cons_append, hstep, ih, hhead]
    cases e.flagControl <;> cases lastFlagControl xs <;> rfl

theorem jsonReplierLoop_eq_written (before evs : List Event) :
    jsonReplierLoop (decide (lastFlagControl before ≠ some false)) evs =
      writtenUnlessDisabled before evs := by
  induction evs generalizing before with
  | nil => rfl
  | cons e rest ih =>
    have happ := lastFlagControl_append_singleton before e
    have hrec := ih (before ++ [e])
    rw [happ] at hrec
    cases e with
    | DisableReportConnectedHosts b =>
      simp only [Event.flagControl] at hrec
      simp [jsonReplierLoop, writtenUnlessDisabled, keptUnlessDisabled, Event.flagControl,
        ← hrec]
    | EnableReportConnectedHosts b =>
      simp only [Event.flagControl] at hrec
      simp [jsonReplierLoop, writtenUnlessDisabled, keptUnlessDisabled, Event.flagControl,
        ← hrec]
    | ConnectionProgress h =>
      simp only [Event.flagControl] at hrec
      by_cases hf : lastFlagControl before = some false
      · simp [jsonReplierLoop, writtenUnlessDisabled, keptUnlessDisabled, Event.flagControl,
          Event.isConnectionProgress, ← hrec, hf]
      · simp [jsonReplierLoop, writtenUnlessDisabled, keptUnlessDisabled, Event.flagControl,
          Event.isConnectionProgress, ← hrec, hf]
    | Reply a b c d f =>
      simp only [Event.flagControl] at hrec
      simp [jsonReplierLoop, writtenUnlessDisabled, keptUnlessDisabled, Event.flagControl,
        Event.isConnectionProgress, ← hrec]
    | PasswordRequest a =>
      simp only [Event.flagControl] at hrec
      simp [jsonReplierLoop, writtenUnlessDisabled, keptUnlessDisabled, Event.flagControl,
        Event.isConnectionProgress, ← hrec]
    | FinalReply a b =>
      simp only [Event.flagControl] at hrec
      simp [jsonReplierLoop, writtenUnlessDisabled, keptUnlessDisabled, Event.flagControl,
        Event.isConnectionProgress, ← hrec]
    | UserError a b =>
      simp only [Event.flagControl] at hrec
      simp [jsonReplierLoop, writtenUnlessDisabled, keptUnlessDisabled, Event.flagControl,
        Event.isConnectionProgress, ← hrec]
    | InitializeComplete a =>
      simp only [Event.flagControl] at hrec
      simp [jsonReplierLoop, writtenUnlessDisabled, keptUnlessDisabled, Event.flagControl,
        Event.isConnectionProgress, ← hrec]

/-- C9, counterexample: a `ConnectionProgress` submitted at process start, before
any Enable message, is written, whereas the rule as specified drops it. -/
theorem jsonReplierThread_initial_progress_written :
    jsonReplierThread [Event.ConnectionProgress "h"] = [Event.ConnectionProgress "h"] ∧
    writtenAsSpecified [] [Event.ConnectionProgress "h"] = [] ∧
    jsonReplierThread [Event.ConnectionProgress "h"]
      ≠ writtenAsSpecified [] [Event.ConnectionProgress "h"] := by
  decide

/-- C9, amended: the events written are the submitted events, in the same order,
without the flag-control messages and without exactly those `ConnectionProgress`
events whose most recent preceding flag-control message is a Disable; a
`ConnectionProgress` submitted before any flag-control message is written, and
every other event is written exactly once. -/
theorem jsonReplierThread_written (submitted : List Event) :
    jsonReplierThread submitted = writtenUnlessDisabled [] submitted := by
  have h := jsonReplierLoop_eq_written [] submitted
  simpa [lastFlagControl, jsonReplierThread] using h

/-! ## The agent admission gate -/

theorem agentConnectionManagerStep_acquire_eq_some {s t : GateState}
    (h : agentConnectionManagerStep s .acquire = some t) :
    0 < s.freeConn ∧ t.freeConn = (s.freeConn + (2 ^ 64 - 1)) % 2 ^ 64 ∧
      t.outstanding = s.outstanding + 1 := by
  unfold agentConnectionManagerStep at h
  by_cases hz : s.freeConn ≤ 0
  · rw [if_pos hz] at h
    cases h
  · rw [if_neg hz] at h
    have ht := Option.some.inj h
    rw [← ht]
    exact ⟨Nat.lt_of_not_ge hz, rfl, rfl⟩

theorem agentConnectionManagerStep_release_eq_some {s t : GateState}
    (h : agentConnectionManagerStep s .release = some t) :
    t.freeConn = (s.freeConn + 1) % 2 ^ 64 ∧ t.outstanding = s.outstanding - 1 := by
  unfold agentConnectionManagerStep at h
  have ht := Option.some.inj h
  rw [← ht]
  exact ⟨rfl, rfl⟩

theorem gateReachable_sum {maxConn : Nat} {s : GateState} (hmax : maxConn < 2 ^ 64)
    (h : GateReachable maxConn s) : s.freeConn + s.outstanding = maxConn := by
  induction h with
  | start => rfl
  | grant _ hstep ih =>
    obtain ⟨hpos, hf, ho⟩ := agentConnectionManagerStep_acquire_eq_some hstep
    rw [hf, ho]
    norm_num at hmax ⊢
    omega
  | release _ hheld hstep ih =>
    obtain ⟨hf, ho⟩ := agentConnectionManagerStep_release_eq_some hstep
    rw [hf, ho]
    norm_num at hmax ⊢
    omega

theorem gateRun_reachable {maxConn : Nat} {s t : GateState} (trace : List GateOp)
    (hs : GateReachable maxConn s) (hrun : gateRun s trace = some t) :
    GateReachable maxConn t := by
  induction trace generalizing s with
  | nil =>
    simp only [gateRun, Option.some.injEq] at hrun
    exact hrun ▸ hs
  | cons op rest ih =>
    cases op with
    | acquire =>
      simp only [gateRun] at hrun
      cases hstep : agentConnectionManagerStep s .acquire with
      | none => simp [hstep] at hrun
      | some u =>
        rw [hstep] at hrun
        exact ih (GateReachable.grant hs hstep) hrun
    | release =>
      simp only [gateRun] at hrun
      by_cases hz : s.outstanding = 0
      · simp [hz] at hrun
      · rw [if_neg hz] at hrun
        cases hstep : agentConnectionManagerStep s .release with
        | none => simp [hstep] at hrun
        | some u =>
          rw [hstep] at hrun
          exact ih (GateReachable.release hs (Nat.pos_of_ne_zero hz) hstep) hrun

theorem getConnection_gate (cfg : Config) (env : Remote) (cache : connHostsMap)
    (hostname : String) :
    (getConnection cfg env cache hostname).gate = [] ∨
    (getConnection cfg env cache hostname).gate = [GateOp.acquire, GateOp.release] := by
  unfold getConnection waitAgent releaseAgent
  cases cache.Get hostname with
  | some c => exact Or.inl rfl
  | none =>
    by_cases hsock : cfg.sshAuthSock = ""
    · left
      cases hd : env.dial ((getHostnameWithPort hostname).1 ++ ":" ++
        (getHostnameWithPort hostname).2) <;> simp [hsock, hd]
    · right
      cases hd : env.dial ((getHostnameWithPort hostname).1 ++ ":" ++
        (getHostnameWithPort hostname).2) <;> simp [hsock, hd]

/-- C11: started with `maxConn` free slots (a `uint64`), in every state the gate
reaches while each release comes from a caller holding a ticket, free count plus
outstanding tickets equals `maxConn`, so at most `maxConn` tickets are
outstanding; and no ticket is granted while the free count is zero: the acquire
branch is disabled there, and whenever it is taken the free count was positive
and drops by one. -/
theorem agentConnectionManagerThread_bounded (maxConn : Nat) (s : GateState)
    (hmax : maxConn < 2 ^ 64) (h : GateReachable maxConn s) :
    s.freeConn + s.outstanding = maxConn ∧
    s.outstanding ≤ maxConn ∧
    (s.freeConn = 0 → agentConnectionManagerStep s .acquire = none) ∧
    (∀ t, agentConnectionManagerStep s .acquire = some t →
      0 < s.freeConn ∧ t.freeConn + 1 = s.freeConn ∧ t.outstanding = s.outstanding + 1 ∧
        t.outstanding ≤ maxConn) := by
  have hsum := gateReachable_sum hmax h
  refine ⟨hsum, by omega, ?_, ?_⟩
  · intro hz
    unfold agentConnectionManagerStep
    rw [if_pos (by omega)]
  · intro t ht
    have hsum2 := gateReachable_sum hmax (GateReachable.grant h ht)
    obtain ⟨hpos, hf, ho⟩ := agentConnectionManagerStep_acquire_eq_some ht
    refine ⟨hpos, ?_, ho, by omega⟩
    omega

/-- Witness for C11: the default of 128 slots, after two grants and one release. -/
theorem agentConnectionManagerThread_bounded_witness :
    maxOpensshAgentConnections < 2 ^ 64 ∧
    gateRun (gateStart maxOpensshAgentConnections)
      [GateOp.acquire, GateOp.acquire, GateOp.release]
      = some { freeConn := 127, outstanding := 1 } ∧
    ((127 : Nat) + 1 = maxOpensshAgentConnections ∧
      (1 : Nat) ≤ maxOpensshAgentConnections ∧
      ((127 : Nat) = 0 →
        agentConnectionManagerStep { freeConn := 127, outstanding := 1 } .acquire = none) ∧
      (∀ t, agentConnectionManagerStep { freeConn := 127, outstanding := 1 } .acquire = some t →
        0 < (127 : Nat) ∧ t.freeConn + 1 = 127 ∧ t.outstanding = 1 + 1 ∧
          t.outstanding ≤ maxOpensshAgentConnections)) :=
  ⟨by decide, by decide,
    agentConnectionManagerThread_bounded maxOpensshAgentConnections
      { freeConn := 127, outstanding := 1 } (by decide)
      (gateRun_reachable [GateOp.acquire, GateOp.acquire, GateOp.release]
        GateReachable.start (by decide))⟩

/-- Without the premise on releases the bound is lost: a release received while no
ticket is held raises the free count above `maxConn`. -/
theorem agentConnectionManagerStep_stray_release :
    agentConnectionManagerStep (gateStart maxOpensshAgentConnections) .release
      = some { freeConn := 129, outstanding := 0 } := by
  decide

/-! ## Dispatcher and workers on the reply channel -/

end GoSSHa
